import Mathlib

/-!
Verification of the PowerSync service sync pipeline.

This file gives a shallow embedding, in Lean 4, of the parts of the
powersync-service code base that the checked properties concern:

* the sync stream orchestrator and its per-batch completion logic
  (packages/service-core/src/sync/sync.ts),
* the per-connection checkpoint state (BucketChecksumState),
* the MongoDB bucket batch writer (MongoBucketBatch: commit gating,
  oversized-row handling, transaction retry bounds),
* the Postgres storage checksum aggregation (getChecksumsInternal),
* the checkpoint demultiplexer (Demultiplexer),
* the MongoDB LSN serialization (MongoLSN).

Pure computations are translated to Lean functions; stateful code is
translated to explicit state-passing functions over state records; the
JavaScript 32-bit integer coercions are made explicit as arithmetic
modulo 2^32.  Theorems about the definitions follow the definitions.
-/

namespace PowerSync

/-! ## Shared helpers: JavaScript string ordering and 32-bit arithmetic -/

/-- Lexicographic comparison of character lists, mirroring the JavaScript
string comparison operator applied to code-unit sequences. -/
def charsLt : List Char → List Char → Bool
  | [], [] => false
  | [], _ :: _ => true
  | _ :: _, [] => false
  | a :: as, b :: bs => if a < b then true else if b < a then false else charsLt as bs

/-- JavaScript string comparison (a < b), as used on LSN strings. -/
def jsStrLt (a b : String) : Bool := charsLt a.data b.data

/-- Interpretation of a natural number below 2^32 as a signed 32-bit value,
mirroring the JavaScript expression (x & 0xffffffff) on a Number. -/
def toInt32 (n : Nat) : Int :=
  if n < 2 ^ 31 then (n : Int) else (n : Int) - 2 ^ 32

/-- Low 32 bits of an arbitrary integer, mirroring the JavaScript BigInt
expression (x & 0xffffffffn), which is always non-negative. -/
def low32 (x : Int) : Nat := (x % (2 ^ 32 : Int)).toNat

/-- 32-bit two's-complement addition of two signed 32-bit values. -/
def add32 (a b : Int) : Int := toInt32 (low32 (a + b))

/-! ## Sync stream orchestrator: bucketDataBatch
(packages/service-core/src/sync/sync.ts, bucketDataBatch)

One chunk returned by storage.getBucketDataBatch.  The loop body of
bucketDataBatch accumulates two flags over all returned chunks: has_more,
set when any chunk reports more data, and checkpointInvalidated, set when
any chunk carries a targetOp beyond the current checkpoint. -/

structure DataChunk where
  bucket : String
  dataLen : Nat
  next_after : Nat
  has_more : Bool
  targetOp : Option Nat
deriving DecidableEq, Repr

structure BatchFlags where
  has_more : Bool
  checkpointInvalidated : Bool
deriving DecidableEq, Repr

/-- Whether a chunk invalidates the checkpoint: targetOp != null and
targetOp > checkpointOp. -/
def chunkInvalidates (checkpointOp : Nat) (c : DataChunk) : Bool :=
  match c.targetOp with
  | some t => decide (t > checkpointOp)
  | none => false

/-- One iteration of the chunk loop in bucketDataBatch: if r.has_more,
set has_more; if targetOp > checkpointOp, set checkpointInvalidated. -/
def stepFlags (checkpointOp : Nat) (f : BatchFlags) (c : DataChunk) : BatchFlags :=
  { has_more := f.has_more || c.has_more
    checkpointInvalidated := f.checkpointInvalidated || chunkInvalidates checkpointOp c }

/-- The flags after the full chunk loop of bucketDataBatch. -/
def batchFlags (checkpointOp : Nat) (chunks : List DataChunk) : BatchFlags :=
  chunks.foldl (stepFlags checkpointOp) { has_more := false, checkpointInvalidated := false }

/-- A completion line of the sync stream protocol. -/
inductive SyncLine where
  | partialCheckpointComplete (priority : Nat) (last_op_id : Nat)
  | checkpointComplete (last_op_id : Nat)
deriving DecidableEq, Repr

/-- The completion line emitted by bucketDataBatch after the chunk loop:
nothing while has_more; nothing when the checkpoint was invalidated;
otherwise partial_checkpoint_complete when forPriority is set, and
checkpoint_complete when it is not. -/
def completionLine (checkpointOp : Nat) (forPriority : Option Nat)
    (chunks : List DataChunk) : Option SyncLine :=
  let f := batchFlags checkpointOp chunks
  if !f.has_more then
    if f.checkpointInvalidated then
      none
    else
      match forPriority with
      | some p => some (.partialCheckpointComplete p checkpointOp)
      | none => some (.checkpointComplete checkpointOp)
  else
    none

/-! ## Sync stream orchestrator: priority grouping
(packages/service-core/src/sync/sync.ts, streamResponseInner)

The checkpoint iteration groups line.bucketsToFetch by priority with
Map.groupBy (insertion order of first occurrence), turns the map into an
entry list, sorts it with the comparator (a, b) => b[0] - a[0], and then
fetches each group in order, emitting partial_checkpoint_complete for
every group except the last one, which gets checkpoint_complete. -/

structure BucketDescription where
  bucket : String
  priority : Nat
deriving DecidableEq, Repr

/-- Insert one bucket into the entry list of Map.groupBy, preserving the
insertion order of first-seen priorities. -/
def insertGroup : List (Nat × List BucketDescription) → BucketDescription →
    List (Nat × List BucketDescription)
  | [], b => [(b.priority, [b])]
  | e :: rest, b =>
    if e.1 = b.priority then (e.1, e.2 ++ [b]) :: rest else e :: insertGroup rest b

/-- Map.groupBy(bucketsToFetch, bucket => bucket.priority), as an entry list. -/
def groupByPriority (l : List BucketDescription) : List (Nat × List BucketDescription) :=
  l.foldl insertGroup []

/-- Insertion step for Array.prototype.sort with the numeric comparator
(a, b) => b[0] - a[0]: an element is placed before the first element with a
smaller or equal key, i.e. the result is ordered by descending key. -/
def insertByKeyDesc (x : Nat × List BucketDescription) :
    List (Nat × List BucketDescription) → List (Nat × List BucketDescription)
  | [] => [x]
  | y :: rest => if x.1 ≥ y.1 then x :: y :: rest else y :: insertByKeyDesc x rest

/-- bucketsByPriority.sort((a, b) => b[0] - a[0]): the group entries ordered
by numerically descending priority value. -/
def sortGroupsByComparator (l : List (Nat × List BucketDescription)) :
    List (Nat × List BucketDescription) :=
  l.foldl (fun acc x => insertByKeyDesc x acc) []

/-- An event of one checkpoint iteration of streamResponseInner. -/
inductive SyncEvent where
  | fetchBuckets (priority : Nat) (buckets : List String)
  | emitPartialCheckpointComplete (priority : Nat)
  | emitCheckpointComplete
deriving DecidableEq, Repr

/-- The per-priority fetch-and-complete schedule of one checkpoint iteration
(no abort): groups sorted by the comparator; lowestPriority is the key of the
last group; every group except the last is followed by
partial_checkpoint_complete for its priority, the last by checkpoint_complete
(forPriority is passed as undefined for the last group only). -/
def prioritySchedule (bucketsToFetch : List BucketDescription) : List SyncEvent :=
  let groups := sortGroupsByComparator (groupByPriority bucketsToFetch)
  let lowestPriority := groups.getLast?.map Prod.fst
  groups.flatMap fun g =>
    let isLast := some g.1 = lowestPriority
    SyncEvent.fetchBuckets g.1 (g.2.map BucketDescription.bucket) ::
      (if isLast then [SyncEvent.emitCheckpointComplete]
       else [SyncEvent.emitPartialCheckpointComplete g.1])

/-! ## Per-connection checkpoint state: updateBucketPosition
(packages/service-core/src/sync/BucketChecksumState.ts) -/

structure BucketSyncState where
  description : Option BucketDescription
  start_op_id : Nat
deriving DecidableEq, Repr

structure BucketChecksumState where
  bucketDataPositions : List (String × BucketSyncState)
  pendingBucketDownloads : List String
  lastChecksums : Option (List (String × Int))
  lastWriteCheckpoint : Option Int
deriving DecidableEq, Repr

structure UpdateBucketPositionOptions where
  bucket : String
  nextAfter : Nat
  hasMore : Bool
deriving DecidableEq, Repr

/-- Association-list lookup, mirroring Map.prototype.get on a string-keyed map. -/
def lookupKey {β : Type} : List (String × β) → String → Option β
  | [], _ => none
  | kv :: rest, key => if kv.1 = key then some kv.2 else lookupKey rest key

/-- The mutation state.start_op_id = options.nextAfter on one tracked entry. -/
def setStartOpId (nextAfter : Nat) (st : BucketSyncState) : BucketSyncState :=
  { st with start_op_id := nextAfter }

/-- BucketChecksumState.updateBucketPosition: if the named bucket is tracked
in bucketDataPositions, set its start_op_id to nextAfter; if hasMore is
false, delete the bucket from pendingBucketDownloads. -/
def updateBucketPosition (s : BucketChecksumState) (o : UpdateBucketPositionOptions) :
    BucketChecksumState :=
  { s with
    bucketDataPositions :=
      s.bucketDataPositions.map fun kv =>
        if kv.1 = o.bucket then (kv.1, setStartOpId o.nextAfter kv.2) else kv
    pendingBucketDownloads :=
      if !o.hasMore then s.pendingBucketDownloads.erase o.bucket
      else s.pendingBucketDownloads }

/-! ## MongoBucketBatch: oversized rows
(modules/module-mongodb-storage, MongoBucketBatch.saveOperation)

The serialized size check of saveOperation.  The BSON serialization itself
is external to the repository, so its byte size enters as a function
argument; the control flow around it is the code's. -/

def MAX_ROW_SIZE : Nat := 15 * 1024 * 1024

/-- A row as a list of columns; none models a JavaScript undefined value. -/
abbrev SqliteRow := List (String × Option String)

/-- The replacement row built in the catch branch: every column of the
original row mapped to undefined. -/
def emptyPlaceholder (after : SqliteRow) : SqliteRow :=
  after.map fun kv => (kv.1, none)

structure AfterDataResult where
  /-- The row persisted in current_data and used for the op data. -/
  storedRow : SqliteRow
  /-- Whether a ROW_TOO_LARGE report was sent to the error reporter. -/
  rowTooLarge : Bool
deriving DecidableEq, Repr

/-- The try/catch around bson.serialize(after) in saveOperation: when the
serialization is larger than MAX_ROW_SIZE, a PSYNC_S1002 error is thrown and
caught, the row is replaced by the empty placeholder, and the error is
reported to telemetry; otherwise the row is kept.  The function is total:
streaming always continues with the returned row. -/
def computeAfterData (bsonByteSize : SqliteRow → Nat) (after : SqliteRow) : AfterDataResult :=
  if bsonByteSize after > MAX_ROW_SIZE then
    { storedRow := emptyPlaceholder after, rowTooLarge := true }
  else
    { storedRow := after, rowTooLarge := false }

/-! ## MongoBucketBatch: transaction retry bound
(MongoBucketBatch.withReplicationTransaction)

Each call of the transaction callback increments flushTry; before running
the body, the code throws PSYNC_S1402 when flushTry > 20 and more than
90000 ms have passed since the start.  A transient failure of the body makes
the session retry the callback. -/

inductive TxResult where
  | committed
  | maxTriesError
deriving DecidableEq, Repr

/-- The retry loop of withReplicationTransaction over a schedule of tries.
Each list entry is (now, ok): the clock value when the try starts and
whether the transaction body succeeds.  Returns none while the schedule is
exhausted with the loop still retrying. -/
def runReplicationTries (start : Nat) : Nat → List (Nat × Bool) → Option TxResult
  | _, [] => none
  | flushTry, e :: rest =>
    let t := flushTry + 1
    if t > 20 && e.1 > start + 90000 then some .maxTriesError
    else if e.2 then some .committed
    else runReplicationTries start t rest

/-- The guard under which a try is allowed to run (the negation of the
throw condition), with t the 1-based try number. -/
def tryAllowed (start t now : Nat) : Bool :=
  decide (t ≤ 20) || decide (now ≤ start + 90000)

/-- All tries of a schedule run under the guard, counting from a given
number of earlier tries. -/
def withinCaps (start : Nat) : Nat → List (Nat × Bool) → Bool
  | _, [] => true
  | t, e :: rest => tryAllowed start (t + 1) e.1 && withinCaps start (t + 1) rest

/-! ## MongoBucketBatch: commit LSN gate
(MongoBucketBatch.commit)

The state read and written by commit: the in-memory last_checkpoint_lsn,
no_checkpoint_before_lsn and persisted_op of the batch, and the fields of
the stored sync_rules document that commit touches.  The pending operation
batch is modelled as already flushed (persisted_op holds the last flushed
op), which is what commit's initial flush() establishes before the gate
runs. -/

structure SyncRuleDoc where
  last_checkpoint : Option Nat
  last_checkpoint_lsn : Option String
  keepalive_op : Option Nat
  snapshot_done : Bool
deriving DecidableEq, Repr

structure BatchCommitState where
  last_checkpoint_lsn : Option String
  no_checkpoint_before_lsn : String
  persisted_op : Option Nat
  doc : SyncRuleDoc
deriving DecidableEq, Repr

/-- MongoBucketBatch.commit(lsn): the LSN gate and the resulting state
update.  Returns the boolean result of commit together with the new state.
The first branch is the re-applied-transaction skip (lsn strictly below
last_checkpoint_lsn); the second is the no_checkpoint_before_lsn wait which
persists keepalive_op; the third is the empty-commit shortcut; the last is
the checkpoint creation. -/
def commit (s : BatchCommitState) (lsn : String) (createEmptyCheckpoints : Bool) :
    Bool × BatchCommitState :=
  if (match s.last_checkpoint_lsn with
      | some l => jsStrLt lsn l
      | none => false) then
    (false, s)
  else if jsStrLt lsn s.no_checkpoint_before_lsn then
    (false, { s with doc := { s.doc with keepalive_op := s.persisted_op } })
  else if !createEmptyCheckpoints && s.persisted_op.isNone then
    (true, s)
  else
    (true,
      { s with
        persisted_op := none
        last_checkpoint_lsn := some lsn
        doc :=
          { last_checkpoint :=
              match s.persisted_op with
              | some op => some op
              | none => s.doc.last_checkpoint
            last_checkpoint_lsn := some lsn
            keepalive_op := none
            snapshot_done := true } })

/-- MongoBucketBatch.keepalive(lsn): the no-op gate uses a non-strict
comparison, unlike commit.  Only the gate is modelled here; on the
pass-through path with a pending persisted_op, keepalive defers to commit. -/
def keepaliveSkips (s : BatchCommitState) (lsn : String) : Bool :=
  match s.last_checkpoint_lsn with
  | some l => jsStrLt lsn l || lsn == l
  | none => false

/-! ## Postgres storage: getChecksumsInternal
(modules/module-postgres-storage, PostgresSyncRulesStorage.getChecksumsInternal)

The SQL aggregation over bucket_data: rows of the requested bucket with
start_op_id < op_id <= end_op_id contribute SUM(checksum), COUNT(*) and
MAX(op = CLEAR).  The GROUP BY produces no output row for a bucket with no
matching ops, so the result is an Option. -/

inductive OpKind where
  | put
  | remove
  | move
  | clear
deriving DecidableEq, Repr

structure BucketDataRow where
  bucket_name : String
  op_id : Nat
  op : OpKind
  checksum : Int
deriving DecidableEq, Repr

/-- The JOIN/WHERE condition of the checksum query for one requested range. -/
def rowMatches (bucket : String) (startOp endOp : Nat) (r : BucketDataRow) : Bool :=
  r.bucket_name == bucket && decide (startOp < r.op_id) && decide (r.op_id ≤ endOp)

/-- The bucket_data rows matched by the query for one requested range. -/
def matchedRows (rows : List BucketDataRow) (bucket : String) (startOp endOp : Nat) :
    List BucketDataRow :=
  rows.filter (rowMatches bucket startOp endOp)

/-- SUM(b.checksum) over the matched rows, as an unbounded integer (the
column sum before the JavaScript 32-bit narrowing). -/
def checksumTotal (rows : List BucketDataRow) (bucket : String) (startOp endOp : Nat) : Int :=
  ((matchedRows rows bucket startOp endOp).map BucketDataRow.checksum).sum

/-- COUNT(*) over the matched rows. -/
def rowCount (rows : List BucketDataRow) (bucket : String) (startOp endOp : Nat) : Nat :=
  (matchedRows rows bucket startOp endOp).length

/-- MAX(CASE WHEN b.op = CLEAR THEN 1 ELSE 0 END) = 1 over the matched rows. -/
def hasClearOp (rows : List BucketDataRow) (bucket : String) (startOp endOp : Nat) : Bool :=
  (matchedRows rows bucket startOp endOp).any fun r => r.op == OpKind.clear

/-- The partialChecksum field: Number(BigInt(checksum_total) & 0xffffffffn)
& 0xffffffff, i.e. the signed 32-bit view of the sum. -/
def partialChecksumValue (rows : List BucketDataRow) (bucket : String) (startOp endOp : Nat) :
    Int :=
  toInt32 (low32 (checksumTotal rows bucket startOp endOp))

structure PartialChecksum where
  partialCount : Nat
  partialChecksum : Int
  isFullChecksum : Bool
deriving DecidableEq, Repr

/-- The PartialChecksum computed by getChecksumsInternal for one bucket and
range, none when the GROUP BY yields no row for the bucket. -/
def getChecksumsInternal (rows : List BucketDataRow) (bucket : String) (startOp endOp : Nat) :
    Option PartialChecksum :=
  if matchedRows rows bucket startOp endOp = [] then none
  else
    some
      { partialCount := rowCount rows bucket startOp endOp
        partialChecksum := partialChecksumValue rows bucket startOp endOp
        isFullChecksum := hasClearOp rows bucket startOp endOp }

/-! ## Demultiplexer subscription state
(Demultiplexer.addSink / removeSink / start)

The subscription state of a Demultiplexer: the subscriber map (key to set
of sinks, both undefined when idle), the current source, and bookkeeping of
which upstream sources were ever started and which were aborted.  Sinks and
sources are identified by numbers; each start() uses a fresh source id. -/

structure DemuxState where
  subscribers : Option (List (String × List Nat))
  currentSource : Option Nat
  nextSource : Nat
  started : List Nat
  aborted : List Nat
deriving DecidableEq, Repr

def demuxInit : DemuxState :=
  { subscribers := none, currentSource := none, nextSource := 0, started := [], aborted := [] }

/-- Adding a sink to the subscriber map under a key: the existing set grows,
or a new single-element entry is created. -/
def insertSink : List (String × List Nat) → String → Nat → List (String × List Nat)
  | [], key, sink => [(key, [sink])]
  | kv :: rest, key, sink =>
    if kv.1 = key then (kv.1, kv.2 ++ [sink]) :: rest else kv :: insertSink rest key sink

/-- Deleting a sink from the subscriber map under a key: the sink leaves the
key's set, and an emptied set removes the key (removeSink's existing.delete
plus the size == 0 key deletion). -/
def deleteSink : List (String × List Nat) → String → Nat → List (String × List Nat)
  | [], _, _ => []
  | kv :: rest, key, sink =>
    if kv.1 = key then
      (let shrunk := kv.2.erase sink
       if shrunk = [] then rest else (kv.1, shrunk) :: rest)
    else kv :: deleteSink rest key sink

/-- Demultiplexer.addSink: with no current source, start() creates the
subscriber map with this single sink, allocates a fresh upstream source and
records it; otherwise the sink joins the existing map and the current
source is shared. -/
def addSink (s : DemuxState) (key : String) (sink : Nat) : DemuxState :=
  match s.currentSource with
  | none =>
    { subscribers := some [(key, [sink])]
      currentSource := some s.nextSource
      nextSource := s.nextSource + 1
      started := s.started ++ [s.nextSource]
      aborted := s.aborted }
  | some _ =>
    { s with subscribers := some (insertSink (s.subscribers.getD []) key sink) }

/-- Demultiplexer.removeSink: with no subscriber map or an unknown key,
nothing happens; otherwise the sink is deleted, and when the map becomes
empty the abort controller fires and the subscription state is cleared. -/
def removeSink (s : DemuxState) (key : String) (sink : Nat) : DemuxState :=
  match s.subscribers with
  | none => s
  | some m =>
    match lookupKey m key with
    | none => s
    | some _ =>
      let shrunkMap := deleteSink m key sink
      if shrunkMap = [] then
        { s with
          subscribers := none
          currentSource := none
          aborted := s.aborted ++ s.currentSource.toList }
      else { s with subscribers := some shrunkMap }

inductive DemuxOp where
  | add (key : String) (sink : Nat)
  | remove (key : String) (sink : Nat)
deriving DecidableEq, Repr

def applyDemuxOp (s : DemuxState) : DemuxOp → DemuxState
  | .add key sink => addSink s key sink
  | .remove key sink => removeSink s key sink

def applyDemuxOps (s : DemuxState) (ops : List DemuxOp) : DemuxState :=
  ops.foldl applyDemuxOp s

/-- The upstream sources started and not (yet) aborted. -/
def activeSources (s : DemuxState) : List Nat :=
  s.started.filter fun x => decide (x ∉ s.aborted)

/-- The number of registered sinks over all keys. -/
def subscriberCount (s : DemuxState) : Nat :=
  match s.subscribers with
  | none => 0
  | some m => (m.map fun kv => kv.2.length).sum

/-! ## Demultiplexer delivery loop
(Demultiplexer.loop and subscribe)

The loop reads multiplexed documents and writes each document's value to
exactly the sinks registered under the document's key.  The write events
are recorded in order as (sink, value) pairs. -/

structure DemuxValue (V : Type) where
  key : String
  value : V

/-- The write events produced by the delivery loop of the Demultiplexer for
a fixed subscriber map over a stream of documents: doc.value goes to every
sink in sinks.get(doc.key), and a document whose key has no sinks is
skipped. -/
def loopWrites {V : Type} (sinks : List (String × List Nat)) (docs : List (DemuxValue V)) :
    List (Nat × V) :=
  docs.flatMap fun doc =>
    match lookupKey sinks doc.key with
    | none => []
    | some keySinks => keySinks.map fun snk => (snk, doc.value)

/-- The values written to one particular sink, in order. -/
def writesTo {V : Type} (snk : Nat) (events : List (Nat × V)) : List V :=
  events.filterMap fun e => if e.1 = snk then some e.2 else none

inductive SinkEvent (V : Type) where
  | write (v : V)
  | read
deriving Repr

/-- Modelled from the spec: LastValueSink (its source file is not among the
given sources) is a bounded single-slot mailbox — a write overwrites the
slot, and the consumer's read takes the current value and clears the slot
(sections 4.4 and 9 of the design: "last value wins", mailbox of size 1).
runSink plays a schedule of writes and reads against the slot and returns
the values the consumer obtains. -/
def runSink {V : Type} : Option V → List (SinkEvent V) → List V
  | _, [] => []
  | _, .write v :: rest => runSink (some v) rest
  | slot, .read :: rest =>
    match slot with
    | some v => v :: runSink none rest
    | none => runSink none rest

/-- The values written in a sink schedule, in order. -/
def writesOf {V : Type} (events : List (SinkEvent V)) : List V :=
  events.filterMap fun e =>
    match e with
    | .write v => some v
    | .read => none

/-- Demultiplexer.subscribe: the subscriber is handed getFirstValue(key)
first, then the values it reads from its LastValueSink. -/
def subscribeOutput {V : Type} (firstValue : V) (events : List (SinkEvent V)) : List V :=
  firstValue :: runSink none events

/-! ## MongoDB LSN serialization
(modules/module-mongodb, MongoLSN)

Strings are modelled as their character lists (JavaScript code-unit
sequences).  The resume token segment stands for the base64 rendering of
the BSON-serialized resume token (produced by an external library); only
its presence and content as an opaque character list matter here. -/

def hexChar (d : Nat) : Char :=
  if d < 10 then Char.ofNat (48 + d) else Char.ofNat (87 + d)

/-- parseInt(-, 16) on one lowercase hex digit. -/
def hexCharVal (c : Char) : Nat :=
  if c.toNat < 97 then c.toNat - 48 else c.toNat - 87

/-- The k least-significant base-16 digits of n, most significant first. -/
def hexDigits : Nat → Nat → List Nat
  | 0, _ => []
  | k + 1, n => hexDigits k (n / 16) ++ [n % 16]

/-- n.toString(16).padStart(k, '0'): the fixed-width zero-padded lowercase
hex rendering of n (the two agree for n < 16^k, and the timestamp halves
are unsigned 32-bit words). -/
def hexPad (k n : Nat) : List Char := (hexDigits k n).map hexChar

/-- The numeric value of a base-16 digit list, most significant first. -/
def hexVal (ds : List Nat) : Nat := ds.foldl (fun a d => a * 16 + d) 0

/-- parseInt(s, 16) on a lowercase hex string. -/
def parseHexChars (cs : List Char) : Nat := cs.foldl (fun a c => a * 16 + hexCharVal c) 0

structure MongoTimestamp where
  high : Nat
  low : Nat
deriving DecidableEq, Repr

structure MongoLSN where
  timestamp : MongoTimestamp
  resume_token : Option (List Char)
deriving DecidableEq, Repr

def DELIMINATOR : Char := '|'

def ZERO_LSN : String := "0000000000000000"

def zeroMongoLSN : MongoLSN := { timestamp := { high := 0, low := 0 }, resume_token := none }

/-- The numeric order key of a cluster timestamp (compare high, then low). -/
def tsVal (t : MongoTimestamp) : Nat := t.high * 2 ^ 32 + t.low

/-- MongoLSN.comparable: the 8-hex-digit high word, the 8-hex-digit low
word, then optionally the delimiter and the serialized resume token. -/
def lsnComparable (x : MongoLSN) : List Char :=
  let ts := hexPad 8 x.timestamp.high ++ hexPad 8 x.timestamp.low
  match x.resume_token with
  | none => ts
  | some tok => ts ++ DELIMINATOR :: tok

/-- The timestamp part of MongoLSN.deserialize: the segment before the
delimiter, split into substring(0, 8) and substring(8, 16), each parsed as
hex; Timestamp.fromBits(b, a) makes a the high and b the low word. -/
def deserializeTimestamp (c : List Char) : MongoTimestamp :=
  let timestampString := c.takeWhile fun ch => ch ≠ DELIMINATOR
  { high := parseHexChars (timestampString.take 8)
    low := parseHexChars ((timestampString.drop 8).take 8) }

/-! # Theorems -/

/-! ## bucketDataBatch: completion lines (claim C4) -/

theorem batchFlags_foldl (cp : Nat) (f : BatchFlags) (chunks : List DataChunk) :
    chunks.foldl (stepFlags cp) f =
      { has_more := f.has_more || chunks.any DataChunk.has_more
        checkpointInvalidated :=
          f.checkpointInvalidated || chunks.any (chunkInvalidates cp) } := by
  induction chunks generalizing f with
  | nil => simp
  | cons c rest ih => simp [stepFlags, ih, Bool.or_assoc]

/-- Claim C4: in bucketDataBatch, a chunk with targetOp strictly above the
checkpoint op marks the checkpoint invalidated (the flag after the loop is
exactly "some chunk invalidates"); and when every chunk reports
has_more = false, a completion line (checkpoint_complete or
partial_checkpoint_complete) is emitted if and only if the checkpoint was
not invalidated. -/
theorem bucketDataBatch_completion (cp : Nat) (forPriority : Option Nat)
    (chunks : List DataChunk) :
    (batchFlags cp chunks).checkpointInvalidated = chunks.any (chunkInvalidates cp) ∧
    (chunks.all (fun c => !c.has_more) = true →
      ((completionLine cp forPriority chunks).isSome ↔
        (batchFlags cp chunks).checkpointInvalidated = false)) := by
  have h := batchFlags_foldl cp { has_more := false, checkpointInvalidated := false } chunks
  have hflag : (batchFlags cp chunks).checkpointInvalidated =
      chunks.any (chunkInvalidates cp) := by
    rw [batchFlags, h]
    simp
  refine ⟨hflag, fun hall => ?_⟩
  have hmore : (batchFlags cp chunks).has_more = false := by
    rw [batchFlags, h]
    simp only [Bool.false_or]
    rw [List.any_eq_false]
    intro c hc
    have := List.all_eq_true.mp hall c hc
    simpa using this
  rcases hinv : (batchFlags cp chunks).checkpointInvalidated with _ | _
  · simp only [completionLine, hmore, hinv, Bool.not_false, if_true, if_false]
    cases forPriority <;> simp
  · simp [completionLine, hmore, hinv]

theorem bucketDataBatch_completion_witness :
    (([{ bucket := "b", dataLen := 1, next_after := 3, has_more := false,
         targetOp := some 9 }] : List DataChunk).all (fun c => !c.has_more) = true) ∧
    ((completionLine 5 none
        [{ bucket := "b", dataLen := 1, next_after := 3, has_more := false,
           targetOp := some 9 }]).isSome ↔
      (batchFlags 5
        [{ bucket := "b", dataLen := 1, next_after := 3, has_more := false,
           targetOp := some 9 }]).checkpointInvalidated = false) :=
  ⟨by decide, (bucketDataBatch_completion 5 none _).2 (by decide)⟩

/-! ## streamResponseInner: priority ordering (claim C3)

The comparator in the source reads (a, b) => b[0] - a[0], which orders the
priority groups by numerically descending priority value; since numerically
smaller values are the semantically higher priorities, the numerically
largest (semantically lowest-priority) group is fetched first.  This
contradicts the adjacent comment ("high priority buckets have smaller
priority values"), the variable name lowestPriority for the final group,
and the function's own doc comment about syncing lower priorities later. -/

/-- Claim C3: evaluated on buckets of priorities 0 and 3, the checkpoint
iteration fetches the priority-3 group first, emits
partial_checkpoint_complete for priority 3, and only then fetches the
priority-0 group, closing with checkpoint_complete — the reverse of the
specified highest-first order. -/
theorem prioritySchedule_fetches_lowest_priority_first :
    prioritySchedule
        [{ bucket := "b0", priority := 0 }, { bucket := "b3", priority := 3 }] =
      [SyncEvent.fetchBuckets 3 ["b3"], SyncEvent.emitPartialCheckpointComplete 3,
       SyncEvent.fetchBuckets 0 ["b0"], SyncEvent.emitCheckpointComplete] := by
  decide

/-! ## BucketChecksumState.updateBucketPosition (claim C9) -/

theorem lookupKey_update {β : Type} (l : List (String × β)) (f : β → β) (bucket b : String) :
    lookupKey (l.map fun kv => if kv.1 = bucket then (kv.1, f kv.2) else kv) b =
      if b = bucket then (lookupKey l b).map f else lookupKey l b := by
  induction l with
  | nil => simp [lookupKey]
  | cons kv rest ih =>
    have hhead : (if kv.1 = bucket then (kv.1, f kv.2) else kv)
        = (kv.1, if kv.1 = bucket then f kv.2 else kv.2) := by
      by_cases h1 : kv.1 = bucket <;> simp [h1]
    rw [List.map_cons, hhead, lookupKey, lookupKey]
    by_cases h3 : kv.1 = b
    · rw [if_pos h3, if_pos h3]
      by_cases h2 : b = bucket
      · rw [if_pos h2, if_pos (h3.trans h2), Option.map_some']
      · rw [if_neg h2, if_neg (fun hc => h2 (h3.symm.trans hc))]
    · rw [if_neg h3, if_neg h3, ih]

theorem map_update_id_of_lookup_none {β : Type} (l : List (String × β)) (f : β → β)
    (bucket : String) (h : lookupKey l bucket = none) :
    (l.map fun kv => if kv.1 = bucket then (kv.1, f kv.2) else kv) = l := by
  induction l with
  | nil => rfl
  | cons kv rest ih =>
    rw [lookupKey] at h
    by_cases h1 : kv.1 = bucket
    · rw [if_pos h1] at h
      exact absurd h (by simp)
    · rw [if_neg h1] at h
      rw [List.map_cons, if_neg h1, ih h]

/-- Claim C9: updateBucketPosition changes only the named bucket — tracked
buckets get start_op_id := nextAfter, pending membership of the bucket
survives exactly when hasMore, every other bucket's position and pending
membership and the remaining state fields are untouched, and a call for an
untracked bucket with hasMore = true is the identity. -/
theorem updateBucketPosition_frame (s : BucketChecksumState)
    (o : UpdateBucketPositionOptions) (hnd : s.pendingBucketDownloads.Nodup) :
    (updateBucketPosition s o).lastChecksums = s.lastChecksums ∧
    (updateBucketPosition s o).lastWriteCheckpoint = s.lastWriteCheckpoint ∧
    (∀ b, b ≠ o.bucket →
      lookupKey (updateBucketPosition s o).bucketDataPositions b =
        lookupKey s.bucketDataPositions b) ∧
    (∀ st, lookupKey s.bucketDataPositions o.bucket = some st →
      lookupKey (updateBucketPosition s o).bucketDataPositions o.bucket =
        some (setStartOpId o.nextAfter st)) ∧
    (∀ b, b ≠ o.bucket →
      (b ∈ (updateBucketPosition s o).pendingBucketDownloads ↔
        b ∈ s.pendingBucketDownloads)) ∧
    ((o.bucket ∈ (updateBucketPosition s o).pendingBucketDownloads ↔
      o.bucket ∈ s.pendingBucketDownloads ∧ o.hasMore = true)) ∧
    (lookupKey s.bucketDataPositions o.bucket = none → o.hasMore = true →
      updateBucketPosition s o = s) := by
  refine ⟨rfl, rfl, ?_, ?_, ?_, ?_, ?_⟩
  · intro b hb
    show lookupKey (s.bucketDataPositions.map fun kv =>
      if kv.1 = o.bucket then (kv.1, setStartOpId o.nextAfter kv.2) else kv) b =
        lookupKey s.bucketDataPositions b
    rw [lookupKey_update]
    rw [if_neg hb]
  · intro st hst
    show lookupKey (s.bucketDataPositions.map fun kv =>
      if kv.1 = o.bucket then (kv.1, setStartOpId o.nextAfter kv.2) else kv) o.bucket =
        some (setStartOpId o.nextAfter st)
    rw [lookupKey_update, if_pos rfl, hst, Option.map_some']
  · intro b hb
    show b ∈ (if !o.hasMore then s.pendingBucketDownloads.erase o.bucket
      else s.pendingBucketDownloads) ↔ b ∈ s.pendingBucketDownloads
    rcases hm : o.hasMore with _ | _
    · simpa using List.mem_erase_of_ne hb
    · simp
  · show o.bucket ∈ (if !o.hasMore then s.pendingBucketDownloads.erase o.bucket
      else s.pendingBucketDownloads) ↔
        o.bucket ∈ s.pendingBucketDownloads ∧ o.hasMore = true
    rcases hm : o.hasMore with _ | _
    · simpa using fun h => absurd h (hnd.not_mem_erase)
    · simp
  · intro hl hm
    rw [updateBucketPosition]
    rw [map_update_id_of_lookup_none _ _ _ hl, hm]
    rfl

theorem updateBucketPosition_frame_witness :
    (["a", "b"] : List String).Nodup ∧
    (updateBucketPosition
      { bucketDataPositions := [("a", { description := none, start_op_id := 1 })]
        pendingBucketDownloads := ["a", "b"]
        lastChecksums := none
        lastWriteCheckpoint := none }
      { bucket := "a", nextAfter := 7, hasMore := false }).lastChecksums = none :=
  ⟨by decide, (updateBucketPosition_frame _ _ (by decide)).1⟩

/-! ## MongoBucketBatch.saveOperation: oversized rows (claim C5) -/

/-- Claim C5 counterexample: a row whose serialization is exactly
MAX_ROW_SIZE = 15 MiB.  The code's check is strict (length > MAX_ROW_SIZE),
so the row is kept as-is and no ROW_TOO_LARGE report is made, although the
claim requires every serialization of at least 15 MiB to be rejected. -/
theorem oversizedRow_boundary_counterexample :
    (computeAfterData (fun _ => MAX_ROW_SIZE) [("id", some "x")]).rowTooLarge = false ∧
    (computeAfterData (fun _ => MAX_ROW_SIZE) [("id", some "x")]).storedRow =
      [("id", some "x")] ∧
    MAX_ROW_SIZE = 15 * 1024 * 1024 := by
  refine ⟨?_, ?_, rfl⟩ <;> decide

/-- Claim C5 (amended: the bound is strict — the serialization must exceed
MAX_ROW_SIZE = 15 MiB): such a row is rejected with ROW_TOO_LARGE
(reported to telemetry, not to the client), replaced with a placeholder in
which every column is empty (undefined) while the column names survive, and
the computation stays total so the op and current_data are still written
with the placeholder. -/
theorem oversizedRow_replaced (size : SqliteRow → Nat) (after : SqliteRow)
    (h : size after > MAX_ROW_SIZE) :
    (computeAfterData size after).rowTooLarge = true ∧
    (computeAfterData size after).storedRow = emptyPlaceholder after ∧
    (∀ kv ∈ (computeAfterData size after).storedRow, kv.2 = none) ∧
    (computeAfterData size after).storedRow.map Prod.fst = after.map Prod.fst := by
  rw [computeAfterData, if_pos h]
  refine ⟨rfl, rfl, ?_, ?_⟩
  · intro kv hkv
    rw [emptyPlaceholder] at hkv
    rcases List.mem_map.mp hkv with ⟨p, _, hp⟩
    exact hp ▸ rfl
  · rw [emptyPlaceholder, List.map_map]
    rfl

theorem oversizedRow_replaced_witness :
    ((fun _ => MAX_ROW_SIZE + 1) ([("id", some "x")] : SqliteRow) > MAX_ROW_SIZE) ∧
    (computeAfterData (fun _ => MAX_ROW_SIZE + 1) [("id", some "x")]).rowTooLarge = true :=
  ⟨by decide, (oversizedRow_replaced (fun _ => MAX_ROW_SIZE + 1) _ (by decide)).1⟩

/-! ## MongoBucketBatch.withReplicationTransaction: retry bound (claim C6) -/

/-- Claim C6 counterexample: the code surfaces PSYNC_S1402 only when both
more than 20 tries were made and more than 90 s elapsed.  A 21st try made
at 25 s runs normally and can even commit, and 30 transient tries within
90 s keep retrying without surfacing the error — contradicting the claimed
cap of "at most 20 tries or 90 seconds". -/
theorem maxRetries_cap_counterexample :
    runReplicationTries 0 0
        (((List.range 20).map fun i => (i * 1000, false)) ++ [(25000, true)]) =
      some TxResult.committed ∧
    runReplicationTries 0 0 ((List.range 30).map fun i => (i * 1000, false)) = none := by
  constructor <;> decide

theorem runReplicationTries_no_error_withinCaps (start : Nat) (tries : List (Nat × Bool)) :
    ∀ t, withinCaps start t tries = true →
      runReplicationTries start t tries ≠ some TxResult.maxTriesError := by
  induction tries with
  | nil => intro t _ h; exact Option.noConfusion h
  | cons e rest ih =>
    intro t hcaps
    rw [withinCaps, Bool.and_eq_true] at hcaps
    rw [runReplicationTries]
    have hguard : (decide (t + 1 > 20) && decide (e.1 > start + 90000)) = false := by
      have := hcaps.1
      rw [tryAllowed, Bool.or_eq_true] at this
      rcases this with h1 | h1 <;> simp at h1 ⊢ <;> omega
    rw [hguard]
    simp only [Bool.false_eq_true, if_false]
    rcases he : e.2 with _ | _
    · simpa [he] using ih (t + 1) hcaps.2
    · simp [he]

theorem runReplicationTries_error_at_cap (start : Nat) (pre : List (Nat × Bool)) :
    ∀ t, withinCaps start t pre = true → (∀ e ∈ pre, e.2 = false) →
      ∀ now o rest, t + pre.length + 1 > 20 → now > start + 90000 →
        runReplicationTries start t (pre ++ (now, o) :: rest) =
          some TxResult.maxTriesError := by
  induction pre with
  | nil =>
    intro t _ _ now o rest ht hnow
    rw [List.nil_append, runReplicationTries]
    have : (decide (t + 1 > 20) && decide (now > start + 90000)) = true := by
      simp only [List.length_nil] at ht
      simp
      omega
    rw [this]
    rfl
  | cons e pre2 ih =>
    intro t hcaps hfail now o rest ht hnow
    rw [withinCaps, Bool.and_eq_true] at hcaps
    rw [List.cons_append, runReplicationTries]
    have hguard : (decide (t + 1 > 20) && decide (e.1 > start + 90000)) = false := by
      have := hcaps.1
      rw [tryAllowed, Bool.or_eq_true] at this
      rcases this with h1 | h1 <;> simp at h1 ⊢ <;> omega
    rw [hguard]
    have he : e.2 = false := hfail e (List.mem_cons_self e pre2)
    simp only [Bool.false_eq_true, if_false, he]
    have := ih (t + 1) hcaps.2 (fun x hx => hfail x (List.mem_cons_of_mem e hx)) now o rest
      (by simp only [List.length_cons] at ht; omega) hnow
    exact this

/-- Claim C6 (amended: the retry loop keeps retrying while the try count is
at most 20 or the elapsed time is within 90 s; ERR_MAX_TX_RETRIES
(PSYNC_S1402) is surfaced on the first try for which both more than 20
tries have started and more than 90 s have elapsed): within the caps no
error is surfaced, and a try past both caps surfaces the error instead of
running. -/
theorem withReplicationTransaction_retry_caps (start : Nat) (tries pre : List (Nat × Bool))
    (now : Nat) (o : Bool) (rest : List (Nat × Bool))
    (hcapsAll : withinCaps start 0 tries = true)
    (hcapsPre : withinCaps start 0 pre = true)
    (hfail : ∀ e ∈ pre, e.2 = false)
    (hcount : pre.length + 1 > 20) (htime : now > start + 90000) :
    runReplicationTries start 0 tries ≠ some TxResult.maxTriesError ∧
    runReplicationTries start 0 (pre ++ (now, o) :: rest) =
      some TxResult.maxTriesError :=
  ⟨runReplicationTries_no_error_withinCaps start tries 0 hcapsAll,
    runReplicationTries_error_at_cap start pre 0 hcapsPre hfail now o rest
      (by omega) htime⟩

theorem withReplicationTransaction_retry_caps_witness :
    (withinCaps 0 0 ((List.range 30).map fun i => (i * 1000, false)) = true) ∧
    (withinCaps 0 0 ((List.range 20).map fun i => (i * 1000, false)) = true) ∧
    (runReplicationTries 0 0 ((List.range 30).map fun i => (i * 1000, false)) ≠
        some TxResult.maxTriesError ∧
      runReplicationTries 0 0
          (((List.range 20).map fun i => (i * 1000, false)) ++ (100000, false) :: []) =
        some TxResult.maxTriesError) :=
  ⟨by decide, by decide,
    withReplicationTransaction_retry_caps 0 _ _ 100000 false [] (by decide) (by decide)
      (by decide) (by decide) (by decide)⟩

/-! ## MongoBucketBatch.commit: LSN gate (claim C2) -/

/-- Claim C2 counterexample: commit at an LSN equal to the current
last_checkpoint_lsn.  The code's skip condition is strict
(lsn < last_checkpoint_lsn), so the call is not a skip: it returns true and
creates a new checkpoint (last_checkpoint advances to the persisted op),
although the claim requires commit with lsn ≤ last_checkpoint_lsn to return
false and leave the stored state unchanged. -/
theorem commit_equal_lsn_counterexample :
    (commit
        { last_checkpoint_lsn := some "5", no_checkpoint_before_lsn := "0"
          persisted_op := some 10
          doc := { last_checkpoint := some 7, last_checkpoint_lsn := some "5"
                   keepalive_op := none, snapshot_done := true } }
        "5" true).1 = true ∧
    (commit
        { last_checkpoint_lsn := some "5", no_checkpoint_before_lsn := "0"
          persisted_op := some 10
          doc := { last_checkpoint := some 7, last_checkpoint_lsn := some "5"
                   keepalive_op := none, snapshot_done := true } }
        "5" true).2.doc.last_checkpoint = some 10 := by
  constructor <;> decide

/-- Claim C2 (amended: the skip applies for lsn strictly below
last_checkpoint_lsn; keepalive, by contrast, no-ops for lsn less than or
equal to it): when last_checkpoint_lsn = L and lsn < L, commit is an
idempotent skip for either createEmptyCheckpoints mode — it returns false
and leaves the entire batch state, including the stored sync-rules
document, unchanged, so no checkpoint and no bucket ops are produced; and
keepalive at lsn ≤ L is a no-op. -/
theorem commit_skips_reapplied_lsn (s : BatchCommitState) (lsn lastLsn : String)
    (hl : s.last_checkpoint_lsn = some lastLsn) (hlt : jsStrLt lsn lastLsn = true) :
    (∀ createEmptyCheckpoints, commit s lsn createEmptyCheckpoints = (false, s)) ∧
    keepaliveSkips s lsn = true := by
  constructor
  · intro createEmptyCheckpoints
    rw [commit, hl]
    rw [if_pos hlt]
  · rw [keepaliveSkips, hl]
    show (jsStrLt lsn lastLsn || lsn == lastLsn) = true
    rw [hlt, Bool.true_or]

theorem commit_skips_reapplied_lsn_witness :
    ((({ last_checkpoint_lsn := some "7", no_checkpoint_before_lsn := "0"
         persisted_op := some 4
         doc := { last_checkpoint := some 3, last_checkpoint_lsn := some "7"
                  keepalive_op := none, snapshot_done := true } } :
        BatchCommitState).last_checkpoint_lsn = some "7") ∧
      jsStrLt "5" "7" = true) ∧
    commit
        { last_checkpoint_lsn := some "7", no_checkpoint_before_lsn := "0"
          persisted_op := some 4
          doc := { last_checkpoint := some 3, last_checkpoint_lsn := some "7"
                   keepalive_op := none, snapshot_done := true } }
        "5" true =
      (false,
        { last_checkpoint_lsn := some "7", no_checkpoint_before_lsn := "0"
          persisted_op := some 4
          doc := { last_checkpoint := some 3, last_checkpoint_lsn := some "7"
                   keepalive_op := none, snapshot_done := true } }) :=
  ⟨⟨rfl, by decide⟩,
    (commit_skips_reapplied_lsn _ "5" "7" rfl (by decide)).1 true⟩

/-! ## getChecksumsInternal: additivity and the CLEAR flag (claim C1) -/

theorem rowMatches_range_split (bucket : String) {a b c : Nat} (hab : a ≤ b) (hbc : b ≤ c)
    (r : BucketDataRow) :
    rowMatches bucket a c r = (rowMatches bucket a b r || rowMatches bucket b c r) ∧
    (rowMatches bucket a b r = true → rowMatches bucket b c r = true → False) := by
  constructor
  · apply Bool.eq_iff_iff.mpr
    simp only [rowMatches, Bool.or_eq_true, Bool.and_eq_true, beq_iff_eq,
      decide_eq_true_eq]
    constructor
    · rintro ⟨⟨hn, h1⟩, h2⟩
      rcases le_or_lt r.op_id b with h3 | h3
      · exact Or.inl ⟨⟨hn, h1⟩, h3⟩
      · exact Or.inr ⟨⟨hn, h3⟩, h2⟩
    · rintro (⟨⟨hn, h1⟩, h2⟩ | ⟨⟨hn, h1⟩, h2⟩)
      · exact ⟨⟨hn, h1⟩, Nat.le_trans h2 hbc⟩
      · exact ⟨⟨hn, Nat.lt_of_le_of_lt hab h1⟩, h2⟩
  · intro hp hq
    simp only [rowMatches, Bool.and_eq_true, beq_iff_eq, decide_eq_true_eq] at hp hq
    omega

theorem length_filter_split {α : Type} (p q pq : α → Bool) (l : List α)
    (hsplit : ∀ x ∈ l, pq x = (p x || q x))
    (hdisj : ∀ x ∈ l, p x = true → q x = true → False) :
    (l.filter pq).length = (l.filter p).length + (l.filter q).length := by
  induction l with
  | nil => rfl
  | cons x rest ih =>
    have hx := hsplit x (List.mem_cons_self x rest)
    have ihr := ih (fun y hy => hsplit y (List.mem_cons_of_mem x hy))
      (fun y hy => hdisj y (List.mem_cons_of_mem x hy))
    have hdx := hdisj x (List.mem_cons_self x rest)
    rw [List.filter_cons, List.filter_cons, List.filter_cons, hx]
    rcases hp : p x with _ | _ <;> rcases hq : q x with _ | _
    · simpa using ihr
    · simp only [Bool.false_or, if_true, List.length_cons]
      simp [ihr]
      omega
    · simp only [Bool.or_false, if_true, List.length_cons]
      simp [ihr]
      omega
    · exact absurd (hdx hp hq) (fun h => h)

theorem sum_map_filter_split {α : Type} (f : α → Int) (p q pq : α → Bool) (l : List α)
    (hsplit : ∀ x ∈ l, pq x = (p x || q x))
    (hdisj : ∀ x ∈ l, p x = true → q x = true → False) :
    ((l.filter pq).map f).sum = ((l.filter p).map f).sum + ((l.filter q).map f).sum := by
  induction l with
  | nil => rfl
  | cons x rest ih =>
    have hx := hsplit x (List.mem_cons_self x rest)
    have ihr := ih (fun y hy => hsplit y (List.mem_cons_of_mem x hy))
      (fun y hy => hdisj y (List.mem_cons_of_mem x hy))
    have hdx := hdisj x (List.mem_cons_self x rest)
    rw [List.filter_cons, List.filter_cons, List.filter_cons, hx]
    rcases hp : p x with _ | _ <;> rcases hq : q x with _ | _
    · simpa using ihr
    · simp only [Bool.false_or, if_true, List.map_cons, List.sum_cons]
      simp [ihr]
      omega
    · simp only [Bool.or_false, if_true, List.map_cons, List.sum_cons]
      simp [ihr]
      omega
    · exact absurd (hdx hp hq) (fun h => h)

theorem toInt32_emod (n : Nat) : toInt32 n % (2 ^ 32 : Int) = (n : Int) % (2 ^ 32 : Int) := by
  rw [toInt32]
  rcases h : decide (n < 2 ^ 31) with _ | _
  · rw [if_neg (by simpa using h)]
    omega
  · rw [if_pos (by simpa using h)]

theorem low32_emod (x : Int) : (low32 x : Int) = x % (2 ^ 32 : Int) := by
  rw [low32]
  exact Int.toNat_of_nonneg (Int.emod_nonneg x (by norm_num))

theorem toInt32_low32_emod (x : Int) :
    toInt32 (low32 x) % (2 ^ 32 : Int) = x % (2 ^ 32 : Int) := by
  rw [toInt32_emod, low32_emod, Int.emod_emod_of_dvd x dvd_rfl]

theorem low32_congr (x y : Int) (h : x % (2 ^ 32 : Int) = y % (2 ^ 32 : Int)) :
    low32 x = low32 y := by
  rw [low32, low32, h]

theorem add32_toInt32_low32 (x y : Int) :
    add32 (toInt32 (low32 x)) (toInt32 (low32 y)) = toInt32 (low32 (x + y)) := by
  rw [add32]
  congr 1
  apply low32_congr
  rw [Int.add_emod, toInt32_low32_emod, toInt32_low32_emod, ← Int.add_emod]

/-- Claim C1: for a bucket and op-id bounds a < b < c with no CLEAR op in
(a, c], the checksum computed by getChecksumsInternal over (a, c] is the
32-bit two's-complement sum of the checksums over (a, b] and (b, c], and
the counts add; if a CLEAR op lies in the summed range, the computed result
carries isFullChecksum = true, and — the stored log containing no op of the
bucket below the CLEAR (a CLEAR absorbs all earlier ops) — the result over
(a, c] coincides with the full result over (0, c]. -/
theorem getChecksumsInternal_additive (rows : List BucketDataRow) (bucket : String)
    (a b c : Nat) :
    (a < b → b < c → hasClearOp rows bucket a c = false →
      rowCount rows bucket a c = rowCount rows bucket a b + rowCount rows bucket b c ∧
      partialChecksumValue rows bucket a c =
        add32 (partialChecksumValue rows bucket a b)
          (partialChecksumValue rows bucket b c)) ∧
    (hasClearOp rows bucket a c = true →
      getChecksumsInternal rows bucket a c =
        some
          { partialCount := rowCount rows bucket a c
            partialChecksum := partialChecksumValue rows bucket a c
            isFullChecksum := true }) ∧
    (∀ kRow, kRow ∈ matchedRows rows bucket a c → kRow.op = OpKind.clear →
      (∀ r ∈ rows, r.bucket_name = bucket → kRow.op_id ≤ r.op_id) →
      getChecksumsInternal rows bucket a c = getChecksumsInternal rows bucket 0 c) := by
  refine ⟨fun hab hbc _ => ?_, fun hclear => ?_, fun kRow hk hko hcompact => ?_⟩
  · have hsplit := fun x (_ : x ∈ rows) =>
      (rowMatches_range_split bucket (Nat.le_of_lt hab) (Nat.le_of_lt hbc) x).1
    have hdisj := fun x (_ : x ∈ rows) =>
      (rowMatches_range_split bucket (Nat.le_of_lt hab) (Nat.le_of_lt hbc) x).2
    constructor
    · rw [rowCount, rowCount, rowCount, matchedRows, matchedRows, matchedRows]
      exact length_filter_split _ _ _ rows hsplit hdisj
    · rw [partialChecksumValue, partialChecksumValue, partialChecksumValue,
        checksumTotal, checksumTotal, checksumTotal,
        matchedRows, matchedRows, matchedRows]
      rw [sum_map_filter_split BucketDataRow.checksum _ _ _ rows hsplit hdisj]
      rw [add32_toInt32_low32]
  · have hne : matchedRows rows bucket a c ≠ [] := by
      rw [hasClearOp, List.any_eq_true] at hclear
      rcases hclear with ⟨r, hr, _⟩
      exact fun h => by rw [h] at hr; exact absurd hr (List.not_mem_nil r)
    rw [getChecksumsInternal, if_neg hne, hclear]
  · have hmem := List.mem_filter.mp hk
    have hmatch := hmem.2
    rw [rowMatches, Bool.and_eq_true, Bool.and_eq_true] at hmatch
    have hka : a < kRow.op_id := by
      have := hmatch.1.2
      simpa using this
    have heq : matchedRows rows bucket a c = matchedRows rows bucket 0 c := by
      rw [matchedRows, matchedRows]
      apply List.filter_congr
      intro r hr
      apply Bool.eq_iff_iff.mpr
      simp only [rowMatches, Bool.and_eq_true, beq_iff_eq, decide_eq_true_eq]
      constructor
      · rintro ⟨⟨hn, h1⟩, h2⟩
        exact ⟨⟨hn, by have := hcompact r hr hn; omega⟩, h2⟩
      · rintro ⟨⟨hn, h1⟩, h2⟩
        exact ⟨⟨hn, by have := hcompact r hr hn; omega⟩, h2⟩
    rw [getChecksumsInternal, getChecksumsInternal, rowCount, rowCount,
      partialChecksumValue, partialChecksumValue, checksumTotal, checksumTotal,
      hasClearOp, hasClearOp, heq]

theorem getChecksumsInternal_additive_witness :
    ((0 : Nat) < 1 ∧ (1 : Nat) < 2 ∧
      hasClearOp
        [{ bucket_name := "bkt", op_id := 1, op := OpKind.put, checksum := 100 },
         { bucket_name := "bkt", op_id := 2, op := OpKind.put, checksum := 50 },
         { bucket_name := "bkt", op_id := 3, op := OpKind.clear, checksum := 7 }]
        "bkt" 0 2 = false) ∧
    (rowCount
        [{ bucket_name := "bkt", op_id := 1, op := OpKind.put, checksum := 100 },
         { bucket_name := "bkt", op_id := 2, op := OpKind.put, checksum := 50 },
         { bucket_name := "bkt", op_id := 3, op := OpKind.clear, checksum := 7 }]
        "bkt" 0 2 =
      rowCount
        [{ bucket_name := "bkt", op_id := 1, op := OpKind.put, checksum := 100 },
         { bucket_name := "bkt", op_id := 2, op := OpKind.put, checksum := 50 },
         { bucket_name := "bkt", op_id := 3, op := OpKind.clear, checksum := 7 }]
        "bkt" 0 1 +
      rowCount
        [{ bucket_name := "bkt", op_id := 1, op := OpKind.put, checksum := 100 },
         { bucket_name := "bkt", op_id := 2, op := OpKind.put, checksum := 50 },
         { bucket_name := "bkt", op_id := 3, op := OpKind.clear, checksum := 7 }]
        "bkt" 1 2) ∧
    (getChecksumsInternal
        [{ bucket_name := "bkt", op_id := 3, op := OpKind.clear, checksum := 7 },
         { bucket_name := "bkt", op_id := 4, op := OpKind.put, checksum := 9 }]
        "bkt" 2 5 =
      getChecksumsInternal
        [{ bucket_name := "bkt", op_id := 3, op := OpKind.clear, checksum := 7 },
         { bucket_name := "bkt", op_id := 4, op := OpKind.put, checksum := 9 }]
        "bkt" 0 5) :=
  ⟨⟨by decide, by decide, by decide⟩,
    ((getChecksumsInternal_additive _ "bkt" 0 1 2).1 (by decide) (by decide) (by decide)).1,
    (getChecksumsInternal_additive
        [{ bucket_name := "bkt", op_id := 3, op := OpKind.clear, checksum := 7 },
         { bucket_name := "bkt", op_id := 4, op := OpKind.put, checksum := 9 }]
        "bkt" 2 3 5).2.2
      { bucket_name := "bkt", op_id := 3, op := OpKind.clear, checksum := 7 }
      (by decide) (by decide) (by decide)⟩

/-! ## Demultiplexer: at-most-one upstream (claim C7) -/

/-- Well-formedness of a Demultiplexer subscription state: source ids are
allocated below nextSource, and either the state is idle (no subscriber
map, no current source, no live upstream) or there is a non-empty
subscriber map with non-empty per-key sink sets and the single live
upstream is exactly the current source. -/
def DemuxWf (s : DemuxState) : Prop :=
  (∀ x ∈ s.started, x < s.nextSource) ∧
  (∀ x ∈ s.aborted, x < s.nextSource) ∧
  (match s.subscribers, s.currentSource with
   | none, none => activeSources s = []
   | some m, some src =>
     m ≠ [] ∧ (∀ kv ∈ m, kv.2 ≠ ([] : List Nat)) ∧ activeSources s = [src]
   | _, _ => False)

theorem demuxWf_init : DemuxWf demuxInit := by
  refine ⟨?_, ?_, ?_⟩ <;> simp [demuxInit, activeSources]

theorem insertSink_ne_nil (m : List (String × List Nat)) (key : String) (sink : Nat) :
    insertSink m key sink ≠ [] := by
  cases m with
  | nil => simp [insertSink]
  | cons kv rest =>
    rw [insertSink]
    by_cases h : kv.1 = key
    · rw [if_pos h]
      simp
    · rw [if_neg h]
      simp

theorem insertSink_values_ne_nil (m : List (String × List Nat)) (key : String) (sink : Nat)
    (h : ∀ kv ∈ m, kv.2 ≠ ([] : List Nat)) :
    ∀ kv ∈ insertSink m key sink, kv.2 ≠ ([] : List Nat) := by
  induction m with
  | nil =>
    intro kv hkv
    rw [insertSink] at hkv
    rcases List.mem_singleton.mp hkv with rfl
    simp
  | cons e rest ih =>
    intro kv hkv
    rw [insertSink] at hkv
    by_cases he : e.1 = key
    · rw [if_pos he] at hkv
      rcases List.mem_cons.mp hkv with rfl | hkv
      · simp
      · exact h kv (List.mem_cons_of_mem e hkv)
    · rw [if_neg he] at hkv
      rcases List.mem_cons.mp hkv with rfl | hkv
      · exact h _ (List.mem_cons_self _ _)
      · exact ih (fun x hx => h x (List.mem_cons_of_mem e hx)) kv hkv

theorem deleteSink_values_ne_nil (m : List (String × List Nat)) (key : String) (sink : Nat)
    (h : ∀ kv ∈ m, kv.2 ≠ ([] : List Nat)) :
    ∀ kv ∈ deleteSink m key sink, kv.2 ≠ ([] : List Nat) := by
  induction m with
  | nil => intro kv hkv; exact absurd hkv (List.not_mem_nil kv)
  | cons e rest ih =>
    intro kv hkv
    rw [deleteSink] at hkv
    by_cases he : e.1 = key
    · rw [if_pos he] at hkv
      by_cases hsh : e.2.erase sink = []
      · rw [if_pos hsh] at hkv
        exact h kv (List.mem_cons_of_mem e hkv)
      · rw [if_neg hsh] at hkv
        rcases List.mem_cons.mp hkv with rfl | hkv
        · exact hsh
        · exact h kv (List.mem_cons_of_mem e hkv)
    · rw [if_neg he] at hkv
      rcases List.mem_cons.mp hkv with rfl | hkv
      · exact h _ (List.mem_cons_self _ _)
      · exact ih (fun x hx => h x (List.mem_cons_of_mem e hx)) kv hkv

theorem demuxWf_addSink (s : DemuxState) (key : String) (sink : Nat) (hwf : DemuxWf s) :
    DemuxWf (addSink s key sink) := by
  obtain ⟨hst, hab, hmatch⟩ := hwf
  rcases hcur : s.currentSource with _ | src
  · rcases hsub : s.subscribers with _ | m
    · rw [hsub, hcur] at hmatch
      have heq : addSink s key sink =
          { subscribers := some [(key, [sink])]
            currentSource := some s.nextSource
            nextSource := s.nextSource + 1
            started := s.started ++ [s.nextSource]
            aborted := s.aborted } := by
        rw [addSink, hcur]
      rw [heq]
      refine ⟨?_, ?_, ?_, ?_, ?_⟩
      · intro x hx
        simp only at hx
        rcases List.mem_append.mp hx with hx | hx
        · exact Nat.lt_succ_of_lt (hst x hx)
        · rcases List.mem_singleton.mp hx with rfl
          exact Nat.lt_succ_self _
      · intro x hx
        exact Nat.lt_succ_of_lt (hab x hx)
      · simp
      · simp
      · rw [activeSources]
        simp only
        rw [List.filter_append]
        rw [activeSources] at hmatch
        rw [hmatch]
        rw [List.nil_append, List.filter_cons]
        have : s.nextSource ∉ s.aborted := fun hmem => absurd (hab _ hmem) (by omega)
        simp [this]
    · rw [hsub, hcur] at hmatch
      exact absurd hmatch (fun h => h)
  · rcases hsub : s.subscribers with _ | m
    · rw [hsub, hcur] at hmatch
      exact absurd hmatch (fun h => h)
    · rw [hsub, hcur] at hmatch
      obtain ⟨hm, hvals, hact⟩ := hmatch
      have heq : addSink s key sink =
          { s with subscribers := some (insertSink (s.subscribers.getD []) key sink) } := by
        rw [addSink, hcur]
      rw [heq]
      refine ⟨hst, hab, ?_⟩
      simp only [hsub, Option.getD_some, hcur]
      refine ⟨insertSink_ne_nil m key sink, insertSink_values_ne_nil m key sink hvals, ?_⟩
      rw [activeSources] at hact ⊢
      exact hact

theorem demuxWf_removeSink (s : DemuxState) (key : String) (sink : Nat) (hwf : DemuxWf s) :
    DemuxWf (removeSink s key sink) := by
  obtain ⟨hst, hab, hmatch⟩ := hwf
  rcases hsub : s.subscribers with _ | m
  · have heq : removeSink s key sink = s := by rw [removeSink, hsub]
    rw [heq]
    exact ⟨hst, hab, hmatch⟩
  · rcases hcur : s.currentSource with _ | src
    · rw [hsub, hcur] at hmatch
      exact absurd hmatch (fun h => h)
    · rw [hsub, hcur] at hmatch
      obtain ⟨hm, hvals, hact⟩ := hmatch
      rcases hlk : lookupKey m key with _ | l
      · have heq : removeSink s key sink = s := by
          simp only [removeSink, hsub, hlk]
        rw [heq]
        exact ⟨hst, hab, by rw [hsub, hcur]; exact ⟨hm, hvals, hact⟩⟩
      · by_cases hdel : deleteSink m key sink = []
        · have heq : removeSink s key sink =
              { s with
                subscribers := none
                currentSource := none
                aborted := s.aborted ++ s.currentSource.toList } := by
            simp only [removeSink, hsub, hlk]
            rw [if_pos hdel]
          rw [heq]
          refine ⟨hst, ?_, ?_⟩
          · intro x hx
            simp only [hcur, Option.toList_some] at hx
            rcases List.mem_append.mp hx with hx | hx
            · exact hab x hx
            · rcases List.mem_singleton.mp hx with rfl
              have hmem : x ∈ activeSources s := by
                rw [hact]
                exact List.mem_singleton.mpr rfl
              rw [activeSources] at hmem
              exact hst x (List.mem_filter.mp hmem).1
          · simp only
            rw [activeSources]
            simp only [hcur, Option.toList_some]
            have hsrc : activeSources s = [src] := hact
            rw [activeSources] at hsrc
            have hf : s.started.filter
                (fun x => decide (x ∉ s.aborted ++ [src])) =
                (s.started.filter (fun x => decide (x ∉ s.aborted))).filter
                  (fun x => decide (x ≠ src)) := by
              rw [List.filter_filter]
              apply List.filter_congr
              intro x _
              apply Bool.eq_iff_iff.mpr
              simp [List.mem_append, not_or, and_comm]
            rw [hf, hsrc, List.filter_cons]
            simp
        · have heq : removeSink s key sink =
              { s with subscribers := some (deleteSink m key sink) } := by
            simp only [removeSink, hsub, hlk]
            rw [if_neg hdel]
          rw [heq]
          refine ⟨hst, hab, ?_⟩
          simp only [hcur]
          exact ⟨hdel, deleteSink_values_ne_nil m key sink hvals, by
            rw [activeSources] at hact ⊢; exact hact⟩

theorem demuxWf_apply (ops : List DemuxOp) :
    ∀ s, DemuxWf s → DemuxWf (applyDemuxOps s ops) := by
  induction ops with
  | nil => intro s h; exact h
  | cons op rest ih =>
    intro s h
    rw [applyDemuxOps, List.foldl_cons]
    apply ih
    cases op with
    | add key sink => exact demuxWf_addSink s key sink h
    | remove key sink => exact demuxWf_removeSink s key sink h

theorem subscriberCount_pos (s : DemuxState) (m : List (String × List Nat))
    (hsub : s.subscribers = some m) (hm : m ≠ [])
    (hvals : ∀ kv ∈ m, kv.2 ≠ ([] : List Nat)) :
    0 < subscriberCount s := by
  rw [subscriberCount, hsub]
  cases m with
  | nil => exact absurd rfl hm
  | cons kv rest =>
    have : kv.2.length ≠ 0 :=
      fun h => hvals kv (List.mem_cons_self kv rest) (List.length_eq_zero.mp h)
    simp only [List.map_cons, List.sum_cons]
    omega

/-- Claim C7: over every sequence of addSink/removeSink operations, the
reachable Demultiplexer state has at most one live upstream source; the
current source exists exactly when there is at least one subscriber (lazy
start, teardown with the last unsubscribe); the single live upstream is the
current source; a subscribe arriving while a source is live shares it and
starts nothing new; and removing the last remaining subscriber clears the
subscription state and aborts the upstream. -/
theorem demultiplexer_at_most_one_upstream (ops : List DemuxOp) (s : DemuxState)
    (hs : s = applyDemuxOps demuxInit ops) :
    (activeSources s).length ≤ 1 ∧
    (s.currentSource.isSome = true ↔ 0 < subscriberCount s) ∧
    (∀ src, s.currentSource = some src → activeSources s = [src]) ∧
    (∀ key sink src, s.currentSource = some src →
      (addSink s key sink).currentSource = some src ∧
      (addSink s key sink).started = s.started) ∧
    (∀ key sink, s.subscribers = some [(key, [sink])] →
      (removeSink s key sink).subscribers = none ∧
      (removeSink s key sink).currentSource = none ∧
      ∀ src, s.currentSource = some src → src ∈ (removeSink s key sink).aborted) := by
  have hwf : DemuxWf s := hs ▸ demuxWf_apply ops demuxInit demuxWf_init
  obtain ⟨hst, hab, hmatch⟩ := hwf
  have hcases :
      (s.subscribers = none ∧ s.currentSource = none ∧ activeSources s = []) ∨
      (∃ m src, s.subscribers = some m ∧ s.currentSource = some src ∧ m ≠ [] ∧
        (∀ kv ∈ m, kv.2 ≠ ([] : List Nat)) ∧ activeSources s = [src]) := by
    rcases hsub : s.subscribers with _ | m <;> rcases hcur : s.currentSource with _ | src <;>
      rw [hsub, hcur] at hmatch
    · exact Or.inl ⟨rfl, rfl, hmatch⟩
    · exact absurd hmatch (fun h => h)
    · exact absurd hmatch (fun h => h)
    · exact Or.inr ⟨m, src, rfl, rfl, hmatch.1, hmatch.2.1, hmatch.2.2⟩
  refine ⟨?_, ?_, ?_, ?_, ?_⟩
  · rcases hcases with ⟨_, _, hact⟩ | ⟨m, src, _, _, _, _, hact⟩ <;> rw [hact] <;> simp
  · rcases hcases with ⟨hsub, hcur, _⟩ | ⟨m, src, hsub, hcur, hm, hvals, _⟩
    · rw [hcur]
      constructor
      · intro h
        exact absurd h (by simp)
      · intro h
        rw [subscriberCount, hsub] at h
        exact absurd h (by simp)
    · rw [hcur]
      exact ⟨fun _ => subscriberCount_pos s m hsub hm hvals, fun _ => rfl⟩
  · intro src hsrc
    rcases hcases with ⟨_, hcur, _⟩ | ⟨m, src2, _, hcur, _, _, hact⟩
    · rw [hcur] at hsrc; exact absurd hsrc (by simp)
    · rw [hcur] at hsrc
      rcases Option.some_inj.mp hsrc with rfl
      exact hact
  · intro key sink src hsrc
    rw [addSink, hsrc]
    exact ⟨rfl, rfl⟩
  · intro key sink hone
    have hlk : lookupKey [(key, [sink])] key = some [sink] := by
      rw [lookupKey, if_pos rfl]
    have hdel : deleteSink [(key, [sink])] key sink = [] := by
      rw [deleteSink]
      simp [List.erase_cons_head]
    have heq : removeSink s key sink =
        { s with
          subscribers := none
          currentSource := none
          aborted := s.aborted ++ s.currentSource.toList } := by
      simp only [removeSink, hone, hlk]
      rw [if_pos hdel]
    rw [heq]
    refine ⟨rfl, rfl, ?_⟩
    intro src hsrc
    rw [hsrc]
    simp

theorem demultiplexer_at_most_one_upstream_witness :
    (applyDemuxOps demuxInit [DemuxOp.add "u1" 0, DemuxOp.add "u2" 1] =
        applyDemuxOps demuxInit [DemuxOp.add "u1" 0, DemuxOp.add "u2" 1]) ∧
    (activeSources (applyDemuxOps demuxInit
        [DemuxOp.add "u1" 0, DemuxOp.add "u2" 1])).length ≤ 1 :=
  ⟨rfl, (demultiplexer_at_most_one_upstream
      [DemuxOp.add "u1" 0, DemuxOp.add "u2" 1] _ rfl).1⟩

/-! ## Demultiplexer: key isolation (claim C8) -/

theorem writesTo_map_pair {V : Type} (l : List Nat) (snk : Nat) (v : V) :
    writesTo snk (l.map fun x => (x, v)) = List.replicate (l.count snk) v := by
  induction l with
  | nil => rfl
  | cons x rest ih =>
    rw [List.map_cons, writesTo]
    rw [writesTo] at ih
    by_cases h : x = snk
    · have hstep :
          List.filterMap (fun e => if e.1 = snk then some e.2 else none)
              (((x, v) : Nat × V) :: rest.map fun y => (y, v)) =
            v :: List.filterMap (fun e => if e.1 = snk then some e.2 else none)
              (rest.map fun y => (y, v)) := by
        rw [List.filterMap_cons]
        rw [if_pos (show ((x, v) : Nat × V).1 = snk from h)]
      rw [hstep, ih, List.count_cons]
      simp [h, List.replicate_succ]
    · have hstep :
          List.filterMap (fun e => if e.1 = snk then some e.2 else none)
              (((x, v) : Nat × V) :: rest.map fun y => (y, v)) =
            List.filterMap (fun e => if e.1 = snk then some e.2 else none)
              (rest.map fun y => (y, v)) := by
        rw [List.filterMap_cons]
        rw [if_neg (show ¬((x, v) : Nat × V).1 = snk from h)]
      rw [hstep, ih, List.count_cons]
      have hbx : (snk == x) = false := beq_eq_false_iff_ne.mpr (Ne.symm h)
      have hbx2 : (x == snk) = false := beq_eq_false_iff_ne.mpr h
      simp [hbx, hbx2]

theorem writesTo_append {V : Type} (snk : Nat) (xs ys : List (Nat × V)) :
    writesTo snk (xs ++ ys) = writesTo snk xs ++ writesTo snk ys := by
  rw [writesTo, writesTo, writesTo, List.filterMap_append]

theorem writesTo_loopWrites {V : Type} (sinks : List (String × List Nat))
    (docs : List (DemuxValue V)) (snk : Nat) (k : String) (l : List Nat)
    (hlk : lookupKey sinks k = some l) (hcount : l.count snk = 1)
    (hother : ∀ k2 l2, k2 ≠ k → lookupKey sinks k2 = some l2 → snk ∉ l2) :
    writesTo snk (loopWrites sinks docs) =
      (docs.filter fun d => d.key == k).map DemuxValue.value := by
  induction docs with
  | nil => rfl
  | cons d rest ih =>
    rw [loopWrites, List.flatMap_cons]
    rw [loopWrites] at ih
    rw [writesTo_append, ih, List.filter_cons]
    by_cases hk : d.key = k
    · have hbeq : (d.key == k) = true := by simp [hk]
      rw [hbeq, if_pos rfl, List.map_cons]
      simp only [hk, hlk]
      rw [writesTo_map_pair, hcount, List.replicate_one]
      rfl
    · have hbeq : (d.key == k) = false := by simp [hk]
      rw [hbeq]
      simp only [Bool.false_eq_true, if_false]
      rcases hl2 : lookupKey sinks d.key with _ | l2
      · simp only [hl2]
        rfl
      · simp only [hl2]
        have hnmem : snk ∉ l2 := hother d.key l2 hk hl2
        rw [writesTo_map_pair, List.count_eq_zero_of_not_mem hnmem, List.replicate_zero]
        rfl

theorem runSink_sublist {V : Type} (events : List (SinkEvent V)) :
    ∀ slot : Option V, (runSink slot events).Sublist (slot.toList ++ writesOf events) := by
  induction events with
  | nil =>
    intro slot
    rw [runSink]
    exact List.nil_sublist _
  | cons e rest ih =>
    intro slot
    cases e with
    | write v =>
      rw [runSink]
      have hw : writesOf (SinkEvent.write v :: rest) = v :: writesOf rest := by
        rw [writesOf, List.filterMap_cons]
        rfl
      rw [hw]
      have := ih (some v)
      rw [Option.toList_some] at this
      exact this.trans (List.sublist_append_right slot.toList (v :: writesOf rest))
    | read =>
      have hw : writesOf (SinkEvent.read :: rest) = writesOf rest := by
        rw [writesOf, List.filterMap_cons]
        rfl
      cases slot with
      | none =>
        rw [runSink, hw, Option.toList_none, List.nil_append]
        have := ih none
        rw [Option.toList_none, List.nil_append] at this
        exact this
      | some v =>
        rw [runSink, hw, Option.toList_some, List.cons_append, List.nil_append]
        have := ih none
        rw [Option.toList_none, List.nil_append] at this
        exact List.Sublist.cons₂ v this

/-- Claim C8: a subscriber registered under key k (and under no other key)
receives exactly getFirstValue(k) first, and afterwards a last-value-wins
subsequence of the upstream values published under k — the values the loop
writes to its sink are precisely the values of the documents with key k, in
order, and whatever read schedule the subscriber follows, the values it
obtains form a sublist of those; it never receives a value published under
a different key. -/
theorem demultiplexer_key_isolation {V : Type} (sinks : List (String × List Nat))
    (docs : List (DemuxValue V)) (snk : Nat) (k : String) (l : List Nat)
    (firstValue : V) (events : List (SinkEvent V))
    (hlk : lookupKey sinks k = some l) (hcount : l.count snk = 1)
    (hother : ∀ k2 l2, k2 ≠ k → lookupKey sinks k2 = some l2 → snk ∉ l2)
    (hevents : writesOf events = writesTo snk (loopWrites sinks docs)) :
    writesTo snk (loopWrites sinks docs) =
      (docs.filter fun d => d.key == k).map DemuxValue.value ∧
    subscribeOutput firstValue events = firstValue :: runSink none events ∧
    (runSink none events).Sublist
      ((docs.filter fun d => d.key == k).map DemuxValue.value) := by
  have hmain := writesTo_loopWrites sinks docs snk k l hlk hcount hother
  refine ⟨hmain, rfl, ?_⟩
  have hsub := runSink_sublist events none
  rw [Option.toList_none, List.nil_append, hevents, hmain] at hsub
  exact hsub

theorem demultiplexer_key_isolation_witness :
    (lookupKey [("u1", [0]), ("u2", [1])] "u1" = some [0] ∧
      ([0] : List Nat).count 0 = 1 ∧
      writesOf [SinkEvent.write (10 : Nat), SinkEvent.read, SinkEvent.write 30] =
        writesTo 0 (loopWrites [("u1", [0]), ("u2", [1])]
          [⟨"u1", 10⟩, ⟨"u2", 20⟩, ⟨"u1", 30⟩])) ∧
    writesTo 0 (loopWrites [("u1", [0]), ("u2", [1])]
        [⟨"u1", (10 : Nat)⟩, ⟨"u2", 20⟩, ⟨"u1", 30⟩]) =
      (([⟨"u1", 10⟩, ⟨"u2", 20⟩, ⟨"u1", 30⟩] : List (DemuxValue Nat)).filter
        fun d => d.key == "u1").map DemuxValue.value :=
  ⟨⟨by decide, by decide, by decide⟩,
    (demultiplexer_key_isolation [("u1", [0]), ("u2", [1])]
      [⟨"u1", 10⟩, ⟨"u2", 20⟩, ⟨"u1", 30⟩] 0 "u1" [0] 99
      [SinkEvent.write 10, SinkEvent.read, SinkEvent.write 30]
      (by decide) (by decide)
      (by
        intro k2 l2 hne hl2
        rw [lookupKey] at hl2
        rw [if_neg (fun h => hne h.symm)] at hl2
        rw [lookupKey] at hl2
        by_cases h2 : ("u2" : String) = k2
        · rw [if_pos h2] at hl2
          have : ([1] : List Nat) = l2 := Option.some_inj.mp hl2
          rw [← this]
          decide
        · rw [if_neg h2, lookupKey] at hl2
          exact absurd hl2 (by simp))
      (by decide)).1⟩

/-! ## MongoLSN: serialization order and round-trip (claim C10) -/

theorem hexDigits_length (k : Nat) : ∀ n, (hexDigits k n).length = k := by
  induction k with
  | zero => intro n; rfl
  | succ k ih =>
    intro n
    rw [hexDigits, List.length_append, ih]
    rfl

theorem hexDigits_lt (k : Nat) : ∀ n, ∀ d ∈ hexDigits k n, d < 16 := by
  induction k with
  | zero => intro n d hd; exact absurd hd (List.not_mem_nil d)
  | succ k ih =>
    intro n d hd
    rw [hexDigits] at hd
    rcases List.mem_append.mp hd with hd | hd
    · exact ih (n / 16) d hd
    · rcases List.mem_singleton.mp hd with rfl
      exact Nat.mod_lt n (by norm_num)

theorem hexFold_init (ds : List Nat) :
    ∀ a : Nat, ds.foldl (fun a d => a * 16 + d) a = a * 16 ^ ds.length + hexVal ds := by
  induction ds with
  | nil => intro a; simp [hexVal]
  | cons d rest ih =>
    intro a
    rw [List.foldl_cons]
    rw [ih (a * 16 + d)]
    have hv : hexVal (d :: rest) = d * 16 ^ rest.length + hexVal rest := by
      rw [hexVal, List.foldl_cons, ih (0 * 16 + d)]
      have : 0 * 16 + d = d := by omega
      rw [this]
    rw [hv, List.length_cons, pow_succ]
    ring

theorem hexVal_cons (d : Nat) (ds : List Nat) :
    hexVal (d :: ds) = d * 16 ^ ds.length + hexVal ds := by
  rw [hexVal, List.foldl_cons, hexFold_init]
  have : 0 * 16 + d = d := by omega
  rw [this]

theorem hexVal_append (ds es : List Nat) :
    hexVal (ds ++ es) = hexVal ds * 16 ^ es.length + hexVal es := by
  rw [hexVal, List.foldl_append]
  exact hexFold_init es (hexVal ds)

theorem hexVal_lt (ds : List Nat) (h : ∀ d ∈ ds, d < 16) :
    hexVal ds < 16 ^ ds.length := by
  induction ds with
  | nil => rw [hexVal]; simp
  | cons d rest ih =>
    rw [hexVal_cons, List.length_cons, pow_succ]
    have h1 : d < 16 := h d (List.mem_cons_self d rest)
    have h2 : hexVal rest < 16 ^ rest.length :=
      ih fun x hx => h x (List.mem_cons_of_mem d hx)
    have h3 : d * 16 ^ rest.length ≤ 15 * 16 ^ rest.length :=
      Nat.mul_le_mul_right _ (by omega)
    omega

theorem hexVal_hexDigits (k : Nat) : ∀ n, hexVal (hexDigits k n) = n % 16 ^ k := by
  induction k with
  | zero => intro n; simp [hexDigits, hexVal, Nat.mod_one]
  | succ k ih =>
    intro n
    rw [hexDigits, hexVal_append, ih (n / 16)]
    have hsing : hexVal [n % 16] = n % 16 := by
      rw [hexVal, List.foldl_cons, List.foldl_nil]
      omega
    rw [hsing, List.length_singleton, pow_one]
    have hmm : n % (16 * 16 ^ k) = n % 16 + 16 * (n / 16 % 16 ^ k) := Nat.mod_mul
    have hpow : (16 : Nat) ^ (k + 1) = 16 * 16 ^ k := by
      rw [pow_succ]
      ring
    rw [hpow, hmm]
    ring

theorem hexChar_lt_iff : ∀ d < 16, ∀ e < 16, (hexChar d < hexChar e ↔ d < e) := by decide

theorem hexCharVal_hexChar : ∀ d < 16, hexCharVal (hexChar d) = d := by decide

theorem hexChar_ne_delim : ∀ d < 16, (hexChar d ≠ DELIMINATOR) := by decide

theorem hexChar_not_lt_zero : ∀ d < 16, ¬(hexChar d < '0') := by decide

theorem charsLt_map_hexChar (ds : List Nat) :
    ∀ es : List Nat, ds.length = es.length → (∀ d ∈ ds, d < 16) → (∀ e ∈ es, e < 16) →
      (charsLt (ds.map hexChar) (es.map hexChar) = true ↔ hexVal ds < hexVal es) := by
  induction ds with
  | nil =>
    intro es hlen _ _
    have : es = [] := List.length_eq_zero.mp hlen.symm
    subst this
    rw [List.map_nil, charsLt]
    simp [hexVal]
  | cons d ds ih =>
    intro es hlen hd he
    cases es with
    | nil => exact absurd hlen (by simp)
    | cons e es =>
      rw [List.map_cons, List.map_cons, charsLt]
      have hd16 : d < 16 := hd d (List.mem_cons_self d ds)
      have he16 : e < 16 := he e (List.mem_cons_self e es)
      have hlen2 : ds.length = es.length := by
        rw [List.length_cons, List.length_cons] at hlen
        omega
      have hvd : hexVal ds < 16 ^ ds.length :=
        hexVal_lt ds fun x hx => hd x (List.mem_cons_of_mem d hx)
      have hve : hexVal es < 16 ^ es.length :=
        hexVal_lt es fun x hx => he x (List.mem_cons_of_mem e hx)
      by_cases h1 : hexChar d < hexChar e
      · rw [if_pos h1]
        have hde : d < e := (hexChar_lt_iff d hd16 e he16).mp h1
        rw [hexVal_cons, hexVal_cons]
        have hstep : d * 16 ^ ds.length + 16 ^ ds.length ≤ e * 16 ^ ds.length :=
          calc d * 16 ^ ds.length + 16 ^ ds.length = (d + 1) * 16 ^ ds.length := by ring
          _ ≤ e * 16 ^ ds.length := Nat.mul_le_mul_right _ (by omega)
        rw [hlen2] at hvd hstep ⊢
        constructor
        · intro _
          omega
        · intro _
          rfl
      · rw [if_neg h1]
        by_cases h2 : hexChar e < hexChar d
        · rw [if_pos h2]
          have hed : e < d := (hexChar_lt_iff e he16 d hd16).mp h2
          rw [hexVal_cons, hexVal_cons]
          have hstep : e * 16 ^ es.length + 16 ^ es.length ≤ d * 16 ^ es.length :=
            calc e * 16 ^ es.length + 16 ^ es.length = (e + 1) * 16 ^ es.length := by ring
            _ ≤ d * 16 ^ es.length := Nat.mul_le_mul_right _ (by omega)
          rw [hlen2] at hvd ⊢
          constructor
          · intro hfalse
            exact absurd hfalse (by simp)
          · intro hlt
            exact absurd hlt (by omega)
        · rw [if_neg h2]
          have hde : ¬d < e := fun h => h1 ((hexChar_lt_iff d hd16 e he16).mpr h)
          have hed : ¬e < d := fun h => h2 ((hexChar_lt_iff e he16 d hd16).mpr h)
          have heq : d = e := by omega
          subst heq
          rw [hexVal_cons, hexVal_cons]
          rw [ih es hlen2 (fun x hx => hd x (List.mem_cons_of_mem d hx))
            (fun x hx => he x (List.mem_cons_of_mem d hx))]
          rw [hlen2]
          omega

theorem charsLt_append_congr (p : List Char) :
    ∀ q r1 r2, p.length = q.length → charsLt p q = true →
      charsLt (p ++ r1) (q ++ r2) = true := by
  induction p with
  | nil =>
    intro q r1 r2 hlen hlt
    have : q = [] := List.length_eq_zero.mp hlen.symm
    subst this
    rw [charsLt] at hlt
    exact absurd hlt (by simp)
  | cons a p ih =>
    intro q r1 r2 hlen hlt
    cases q with
    | nil => exact absurd hlen (by simp)
    | cons b q =>
      rw [List.cons_append, List.cons_append, charsLt]
      rw [charsLt] at hlt
      by_cases h1 : a < b
      · rw [if_pos h1]
      · rw [if_neg h1] at hlt ⊢
        by_cases h2 : b < a
        · rw [if_pos h2] at hlt
          exact absurd hlt (by simp)
        · rw [if_neg h2] at hlt ⊢
          exact ih q r1 r2 (by simpa using hlen) hlt

theorem charsLt_not_below_zeros (zs : List Char) :
    ∀ cs : List Char, (∀ c ∈ zs, c = '0') → zs.length ≤ cs.length →
      (∀ c ∈ cs.take zs.length, ¬(c < '0')) → charsLt cs zs = false := by
  induction zs with
  | nil =>
    intro cs _ _ _
    cases cs with
    | nil => rfl
    | cons c cs => rfl
  | cons z zs ih =>
    intro cs hz hlen hc
    cases cs with
    | nil => exact absurd hlen (by simp)
    | cons c cs =>
      rw [charsLt]
      have hz0 : z = '0' := hz z (List.mem_cons_self z zs)
      have hcmem : c ∈ (c :: cs).take (z :: zs).length := by
        rw [List.length_cons, List.take_succ_cons]
        exact List.mem_cons_self c _
      have hcz : ¬(c < z) := by
        rw [hz0]
        exact hc c hcmem
      rw [if_neg hcz]
      by_cases h2 : z < c
      · rw [if_pos h2]
      · rw [if_neg h2]
        apply ih cs (fun x hx => hz x (List.mem_cons_of_mem z hx))
          (by simpa using hlen)
        intro x hx
        apply hc
        rw [List.length_cons, List.take_succ_cons]
        exact List.mem_cons_of_mem c hx

theorem parseHexChars_map (ds : List Nat) (h : ∀ d ∈ ds, d < 16) :
    parseHexChars (ds.map hexChar) = hexVal ds := by
  rw [parseHexChars, hexVal]
  have : ∀ a : Nat, (ds.map hexChar).foldl (fun a c => a * 16 + hexCharVal c) a =
      ds.foldl (fun a d => a * 16 + d) a := by
    induction ds with
    | nil => intro a; rfl
    | cons d rest ih =>
      intro a
      rw [List.map_cons, List.foldl_cons, List.foldl_cons]
      rw [hexCharVal_hexChar d (h d (List.mem_cons_self d rest))]
      exact ih (fun x hx => h x (List.mem_cons_of_mem d hx)) _
  exact this 0

/-- The 16 hex digits of an LSN's timestamp part, as digit values. -/
theorem lsnComparable_shape (x : MongoLSN) :
    ∃ suffix : List Char,
      lsnComparable x =
        ((hexDigits 8 x.timestamp.high ++ hexDigits 8 x.timestamp.low).map hexChar) ++
          suffix ∧
      (x.resume_token = none → suffix = []) ∧
      (suffix ≠ [] → suffix.head? = some DELIMINATOR) := by
  rcases htok : x.resume_token with _ | tok
  · refine ⟨[], ?_, fun _ => rfl, fun h => absurd rfl h⟩
    rw [lsnComparable, htok]
    rw [hexPad, hexPad, List.map_append, List.append_nil]
  · refine ⟨DELIMINATOR :: tok, ?_, fun h => Option.noConfusion h, fun _ => rfl⟩
    rw [lsnComparable, htok]
    rw [hexPad, hexPad, List.map_append]

theorem hexVal_timestamp (t : MongoTimestamp) (h1 : t.high < 2 ^ 32) (h2 : t.low < 2 ^ 32) :
    hexVal (hexDigits 8 t.high ++ hexDigits 8 t.low) = tsVal t := by
  rw [hexVal_append, hexDigits_length, hexVal_hexDigits, hexVal_hexDigits]
  have hp : (16 : Nat) ^ 8 = 2 ^ 32 := by norm_num
  rw [hp, Nat.mod_eq_of_lt h1, Nat.mod_eq_of_lt h2, tsVal]

/-- Claim C10 counterexample: two MongoLSN values with identical cluster
timestamps, one carrying a resume token.  Their comparable strings compare
strictly (the token segment breaks the tie), so the lexicographic order of
comparable strings does not coincide with the numeric order of timestamps
for all values, as the claim asserts. -/
theorem mongoLSN_order_counterexample :
    charsLt
        (lsnComparable { timestamp := { high := 0, low := 1 }, resume_token := none })
        (lsnComparable
          { timestamp := { high := 0, low := 1 }, resume_token := some ['Q'] }) = true ∧
    tsVal { high := 0, low := 1 } =
      tsVal ({ high := 0, low := 1 } : MongoTimestamp) := by
  constructor <;> decide

/-- Claim C10 (amended: a strictly smaller timestamp always gives a
lexicographically smaller comparable string; for values without resume
tokens the lexicographic order of comparable strings coincides exactly with
the numeric order of timestamps, while equal timestamps may compare
unequal through the resume-token segment; fromSerialized recovers the
timestamp from the comparable string; and ZERO_LSN — the comparable of the
zero LSN — is the least element). -/
theorem mongoLSN_comparable_order (x y : MongoLSN)
    (hxh : x.timestamp.high < 2 ^ 32) (hxl : x.timestamp.low < 2 ^ 32)
    (hyh : y.timestamp.high < 2 ^ 32) (hyl : y.timestamp.low < 2 ^ 32) :
    (tsVal x.timestamp < tsVal y.timestamp →
      charsLt (lsnComparable x) (lsnComparable y) = true) ∧
    (x.resume_token = none → y.resume_token = none →
      (charsLt (lsnComparable x) (lsnComparable y) = true ↔
        tsVal x.timestamp < tsVal y.timestamp)) ∧
    deserializeTimestamp (lsnComparable x) = x.timestamp ∧
    lsnComparable zeroMongoLSN = ZERO_LSN.data ∧
    charsLt (lsnComparable x) (lsnComparable zeroMongoLSN) = false := by
  obtain ⟨sx, hsx, hsxnone, hsxhead⟩ := lsnComparable_shape x
  obtain ⟨sy, hsy, hsynone, -⟩ := lsnComparable_shape y
  have hdx16 : ∀ d ∈ hexDigits 8 x.timestamp.high ++ hexDigits 8 x.timestamp.low, d < 16 := by
    intro d hd
    rcases List.mem_append.mp hd with hd | hd
    · exact hexDigits_lt 8 _ d hd
    · exact hexDigits_lt 8 _ d hd
  have hdy16 : ∀ d ∈ hexDigits 8 y.timestamp.high ++ hexDigits 8 y.timestamp.low, d < 16 := by
    intro d hd
    rcases List.mem_append.mp hd with hd | hd
    · exact hexDigits_lt 8 _ d hd
    · exact hexDigits_lt 8 _ d hd
  have hlx : (hexDigits 8 x.timestamp.high ++ hexDigits 8 x.timestamp.low).length = 16 := by
    rw [List.length_append, hexDigits_length, hexDigits_length]
  have hly : (hexDigits 8 y.timestamp.high ++ hexDigits 8 y.timestamp.low).length = 16 := by
    rw [List.length_append, hexDigits_length, hexDigits_length]
  have hvx := hexVal_timestamp x.timestamp hxh hxl
  have hvy := hexVal_timestamp y.timestamp hyh hyl
  have hmaps := charsLt_map_hexChar
    (hexDigits 8 x.timestamp.high ++ hexDigits 8 x.timestamp.low)
    (hexDigits 8 y.timestamp.high ++ hexDigits 8 y.timestamp.low)
    (by rw [hlx, hly]) hdx16 hdy16
  refine ⟨?_, ?_, ?_, ?_, ?_⟩
  · intro hlt
    rw [hsx, hsy]
    apply charsLt_append_congr
    · rw [List.length_map, List.length_map, hlx, hly]
    · rw [hmaps, hvx, hvy]
      exact hlt
  · intro hxn hyn
    rw [hsx, hsy, hsxnone hxn, hsynone hyn, List.append_nil, List.append_nil]
    rw [hmaps, hvx, hvy]
  · have hsfx : sx.takeWhile (fun ch => ch ≠ DELIMINATOR) = [] := by
      rcases hsxe : sx with _ | ⟨c, rest⟩
      · rfl
      · have h1 := hsxhead (by rw [hsxe]; exact fun h => List.noConfusion h)
        rw [hsxe, List.head?_cons] at h1
        have hc : c = DELIMINATOR := Option.some_inj.mp h1
        subst hc
        rw [List.takeWhile_cons]
        simp
    have hallx : ∀ a ∈ (hexDigits 8 x.timestamp.high ++
        hexDigits 8 x.timestamp.low).map hexChar,
        (fun ch => decide (ch ≠ DELIMINATOR)) a = true := by
      intro a ha
      rcases List.mem_map.mp ha with ⟨d, hd, rfl⟩
      simpa using hexChar_ne_delim d (hdx16 d hd)
    have hts : (lsnComparable x).takeWhile (fun ch => ch ≠ DELIMINATOR) =
        (hexDigits 8 x.timestamp.high).map hexChar ++
          (hexDigits 8 x.timestamp.low).map hexChar := by
      rw [hsx]
      rw [List.takeWhile_append_of_pos hallx, hsfx, List.append_nil, List.map_append]
    simp only [deserializeTimestamp]
    rw [hts]
    rw [List.take_left' (by rw [List.length_map, hexDigits_length])]
    rw [List.drop_left' (by rw [List.length_map, hexDigits_length])]
    rw [List.take_of_length_le (by rw [List.length_map, hexDigits_length])]
    rw [parseHexChars_map _ (hexDigits_lt 8 _), parseHexChars_map _ (hexDigits_lt 8 _)]
    rw [hexVal_hexDigits, hexVal_hexDigits]
    have hp : (16 : Nat) ^ 8 = 2 ^ 32 := by norm_num
    rw [hp, Nat.mod_eq_of_lt hxh, Nat.mod_eq_of_lt hxl]
  · decide
  · apply charsLt_not_below_zeros
    · decide
    · have hzlen : (lsnComparable zeroMongoLSN).length = 16 := by decide
      rw [hzlen, hsx, List.length_append, List.length_map, hlx]
      omega
    · have hzlen : (lsnComparable zeroMongoLSN).length = 16 := by decide
      rw [hzlen, hsx]
      rw [List.take_left' (by rw [List.length_map, hlx])]
      intro c hc
      rcases List.mem_map.mp hc with ⟨d, hd, rfl⟩
      exact hexChar_not_lt_zero d (hdx16 d hd)

theorem mongoLSN_comparable_order_witness :
    ((1 : Nat) < 2 ^ 32 ∧ (2 : Nat) < 2 ^ 32 ∧
      tsVal { high := 0, low := 1 } < tsVal ({ high := 0, low := 2 } : MongoTimestamp)) ∧
    charsLt
        (lsnComparable
          { timestamp := { high := 0, low := 1 }, resume_token := some ['Q'] })
        (lsnComparable
          { timestamp := { high := 0, low := 2 }, resume_token := none }) = true ∧
    deserializeTimestamp
        (lsnComparable
          { timestamp := { high := 0, low := 1 }, resume_token := some ['Q'] }) =
      { high := 0, low := 1 } :=
  ⟨⟨by decide, by decide, by decide⟩,
    (mongoLSN_comparable_order
        { timestamp := { high := 0, low := 1 }, resume_token := some ['Q'] }
        { timestamp := { high := 0, low := 2 }, resume_token := none }
        (by decide) (by decide) (by decide) (by decide)).1 (by decide),
    (mongoLSN_comparable_order
        { timestamp := { high := 0, low := 1 }, resume_token := some ['Q'] }
        { timestamp := { high := 0, low := 2 }, resume_token := none }
        (by decide) (by decide) (by decide) (by decide)).2.2.1⟩

end PowerSync
